import Mathlib

set_option linter.unusedVariables false

/-!
Shallow embedding of the met_simple_storage file-storage service.

The embedding covers the metadata/storage coordination core:
the data model (src/models/file_models.ts), the in-memory catalog
(src/src/file/file_data.memory.service.ts) and the controller's upload,
retrieval and deletion coordinators (src/src/file/file.controller.ts).

Conventions:
- JS strings stay `String`, JS numbers used as sizes or page indices become
  `Int` (they are integers in every code path modelled here).
- `Date` values are kept as their ISO-8601 string (the code only ever
  compares `dateAdded.toISOString()` strings).
- A `Record<string, FileDetails>` object becomes an association list in
  property-insertion order with unique keys; `obj[k] = v` is `objSet`,
  `delete obj[k]` is `objDelete`, `obj[k]` is `objGet`.
- Fallible async operations become `Except` values; injected failure
  oracles stand for filesystem nondeterminism (whether a given rename / rm
  rejects).
-/

/-- A catalog record (class FileDetails of src/models/file_models.ts);
`dateAdded` is kept as its ISO string and `size` as an integer. -/
structure FileDetails where
  id : String
  originalFilename : String
  filename : String
  dateAdded : String
  authorId : String
  size : Int
  isPrivate : Bool
deriving Repr, DecidableEq

/-- A record as built before the catalog assigns an id
(class NewFileDetails of src/models/file_models.ts). -/
structure NewFileDetails where
  originalFilename : String
  filename : String
  dateAdded : String
  authorId : String
  size : Int
  isPrivate : Bool
deriving Repr, DecidableEq

/-- FileDetails.fromNewFileDetails: attach the freshly assigned id. -/
def FileDetails.fromNewFileDetails (id : String) (nfd : NewFileDetails) : FileDetails :=
  { id := id
    originalFilename := nfd.originalFilename
    filename := nfd.filename
    dateAdded := nfd.dateAdded
    authorId := nfd.authorId
    size := nfd.size
    isPrivate := nfd.isPrivate }

/-- One entry of the catalog's batch-delete report
(interface DeleteDetails of src/src/file/file_data.service.ts). -/
structure DeleteDetails where
  filename : String
  fileDetails : Option FileDetails
  error : Option String
deriving Repr, DecidableEq

/-- The in-memory catalog state `_files : Record<string, FileDetails>`,
as an association list in property-insertion order with unique keys. -/
abbrev Store := List (String × FileDetails)

/-- Property read `obj[k]`: the value at the key, if present. -/
def objGet (st : Store) (k : String) : Option FileDetails :=
  (st.find? (fun p => p.1 == k)).map (fun p => p.2)

/-- Property write `obj[k] = v`: replace the value at an existing key in
place (JS keeps the original insertion position), else append. -/
def objSet : Store → String → FileDetails → Store
  | [], k, v => [(k, v)]
  | p :: st, k, v => if p.1 == k then (k, v) :: st else p :: objSet st k v

/-- Property removal `delete obj[k]`. -/
def objDelete (st : Store) (k : String) : Store :=
  st.filter (fun p => p.1 != k)

theorem objGet_nil (k : String) : objGet [] k = none := rfl

theorem objGet_cons (p : String × FileDetails) (st : Store) (k : String) :
    objGet (p :: st) k = if p.1 = k then some p.2 else objGet st k := by
  by_cases h : p.1 = k
  · simp [objGet, List.find?, h]
  · have hb : (p.1 == k) = false := beq_eq_false_iff_ne.mpr h
    simp [objGet, List.find?, hb, h]

theorem objGet_objSet (st : Store) (k k' : String) (v : FileDetails) :
    objGet (objSet st k v) k' = if k' = k then some v else objGet st k' := by
  induction st with
  | nil =>
    simp only [objSet, objGet_cons, objGet_nil]
    by_cases h : k' = k
    · simp [h]
    · have h2 : ¬(k = k') := fun hk => h hk.symm
      simp [h, h2]
  | cons p st ih =>
    by_cases hp : p.1 = k
    · simp only [objSet, hp, beq_self_eq_true, if_true, objGet_cons]
      by_cases h : k' = k
      · simp [h]
      · have h2 : ¬(k = k') := fun hk => h hk.symm
        simp [h, h2, hp]
    · have hbeq : (p.1 == k) = false := beq_eq_false_iff_ne.mpr hp
      simp only [objSet, hbeq, Bool.false_eq_true, if_false, objGet_cons, ih]
      by_cases h : p.1 = k'
      · have h2 : ¬(k' = k) := fun hk => hp (h.trans hk)
        simp [h, h2]
      · simp [h]

theorem objGet_objDelete (st : Store) (k k' : String) :
    objGet (objDelete st k) k' = if k' = k then none else objGet st k' := by
  induction st with
  | nil => by_cases h : k' = k <;> simp [objDelete, objGet, h]
  | cons p st ih =>
    by_cases hp : p.1 = k
    · have hne : (p.1 != k) = false := by simp [bne, hp]
      simp only [objDelete, List.filter_cons, hne, Bool.false_eq_true, if_false] at ih ⊢
      rw [ih, objGet_cons]
      by_cases h : k' = k
      · simp [h]
      · simp [h, show ¬(p.1 = k') from fun hk => h (hk ▸ hp.symm ▸ rfl)]
    · have hne : (p.1 != k) = true := by simp [bne]; exact hp
      simp only [objDelete, List.filter_cons, hne, if_true] at ih ⊢
      rw [objGet_cons, objGet_cons, ih]
      by_cases h : p.1 = k'
      · have : ¬(k' = k) := fun hk => hp (h.trans hk)
        simp [h, this]
      · simp [h]

/-- JavaScript Array.prototype.slice with integer arguments, including the
negative and out-of-range index handling the JS spec prescribes. -/
def jsSlice {α : Type} (l : List α) (start stop : Int) : List α :=
  let len : Int := l.length
  let relStart := if start < 0 then max (len + start) 0 else min start len
  let relStop := if stop < 0 then max (len + stop) 0 else min stop len
  (l.take relStop.toNat).drop relStart.toNat

/-- Output of getFileList (interface FileListOutput of
src/src/file/file_data.service.ts). -/
structure FileListOutput where
  files : List FileDetails
  morePages : Bool
deriving Repr, DecidableEq

namespace InMemoryFileDataService

/-- InMemoryFileDataService.getFileList of
src/src/file/file_data.memory.service.ts. The sort comparator
(localeCompare on originalFilename, or on the ISO dateAdded string when
options.sortBy is DateAdded) is abstracted as the parameter `le`;
`Object.values(this.files)` lists the values in property order. -/
def getFileList (st : Store) (page pagination : Int)
    (le : FileDetails → FileDetails → Bool) : FileListOutput :=
  let skip := pagination * (page - 1)
  let stop := pagination * page
  let fileList := (st.map (fun p => p.2)).mergeSort le
  let totalFiles : Int := fileList.length
  let files := jsSlice fileList skip stop
  { files := files, morePages := decide (stop < totalFiles) }

/-- The sorted value list getFileList pages over. -/
def sortedFiles (st : Store) (le : FileDetails → FileDetails → Bool) :
    List FileDetails :=
  (st.map (fun p => p.2)).mergeSort le

/-- InMemoryFileDataService.getFileByName: the NotFoundError rejection
becomes the error branch. -/
def getFileByName (st : Store) (name : String) : Except String FileDetails :=
  match objGet st name with
  | some file => Except.ok file
  | none => Except.error ("File Not Found")

/-- InMemoryFileDataService.addFiles, one step per input record (the map
body): assign a fresh uuid as id, build the FileDetails, store it under
`this.files[fileDetails.filename]`. `idGen i` supplies the uuid used for
the i-th record of the batch. -/
def addFilesAux (idGen : Nat → String) :
    Store → Nat → List NewFileDetails → List FileDetails × Store
  | st, _, [] => ([], st)
  | st, i, nfd :: rest =>
    let fileDetails := FileDetails.fromNewFileDetails (idGen i) nfd
    let st' := objSet st fileDetails.filename fileDetails
    let (out, stF) := addFilesAux idGen st' (i + 1) rest
    (fileDetails :: out, stF)

/-- InMemoryFileDataService.addFiles: returns the records handed back to
the caller and the catalog state after the batch. -/
def addFiles (st : Store) (idGen : Nat → String)
    (newFileDetails : List NewFileDetails) : List FileDetails × Store :=
  addFilesAux idGen st 0 newFileDetails

/-- InMemoryFileDataService.deleteFiles: one report entry per name, in
input order; a present name is removed and reported with its record, an
absent one is reported with the error string. -/
def deleteFiles : Store → List String → List DeleteDetails × Store
  | st, [] => ([], st)
  | st, filename :: rest =>
    match objGet st filename with
    | some file =>
      let (out, st') := deleteFiles (objDelete st filename) rest
      ({ filename := filename, fileDetails := some file, error := none } :: out, st')
    | none =>
      let (out, st') := deleteFiles st rest
      ({ filename := filename, fileDetails := none,
         error := some ("File Does Not Exist") } :: out, st')

end InMemoryFileDataService

/-- The character class [A-Za-z0-9._-] of the sanitizing regexes. -/
def allowedChar (c : Char) : Bool :=
  c.isAlpha || c.isDigit || c == '.' || c == '_' || c == '-'

namespace UploadedFile

/-- First replace of UploadedFile.sanitizeFilename,
`filename.replace(/[^A-Za-z0-9._-]+/g, '_')`: each maximal run of
characters outside the class becomes one underscore. `inRun` records
whether the previous character belonged to such a run. -/
def replaceBadRuns (inRun : Bool) : List Char → List Char
  | [] => []
  | c :: cs =>
    if allowedChar c then c :: replaceBadRuns false cs
    else if inRun then replaceBadRuns true cs
    else '_' :: replaceBadRuns true cs

/-- Second replace, `sanitizedName.replace(/[_]+/g, '_')`: each maximal
run of underscores becomes one underscore. -/
def collapseUnderscores (inRun : Bool) : List Char → List Char
  | [] => []
  | c :: cs =>
    if c == '_' then
      if inRun then collapseUnderscores true cs
      else '_' :: collapseUnderscores true cs
    else c :: collapseUnderscores false cs

/-- UploadedFile.sanitizeFilename of src/models/file_models.ts. -/
def sanitizeFilename (filename : String) : String :=
  String.mk (collapseUnderscores false (replaceBadRuns false filename.data))

end UploadedFile

/-- An uploaded payload as parsed from the multipart form
(class UploadedFile of src/models/file_models.ts). -/
structure UploadedFile where
  filepath : String
  originalFilename : String
  size : Int
deriving Repr, DecidableEq

/-- A JSON value as produced by JSON.parse of the ops form field; only the
shapes distinguishable by the strict equality test the code performs are
needed. -/
inductive JsValue where
  | vNull : JsValue
  | vBool : Bool → JsValue
  | vNum : Int → JsValue
  | vStr : String → JsValue
deriving Repr, DecidableEq

/-- The ops object built by parseFilesAndFields; isPrivate is Option-typed
because the `?? true` at the use site guards an absent member. -/
structure ParsedOps where
  isPrivate : Option Bool
deriving Repr, DecidableEq

/-- ParsedFilesAndFields of src/models/file_models.ts. -/
structure ParsedFilesAndFields where
  files : List UploadedFile
  ops : ParsedOps
deriving Repr, DecidableEq

/-- A NestJS HttpException value: message and HTTP status. -/
structure HttpException where
  message : String
  status : Nat
deriving Repr, DecidableEq

/-- The JSON shape of one entry of the deletion report
(DeleteDetailsJSON of src/src/file/file_data.service.ts); optional JSON
members become Options. -/
structure DeleteDetailsJSON where
  filename : String
  error : Option String
  fileDetails : Option FileDetails
deriving Repr, DecidableEq

deriving instance DecidableEq for Except

/-- The settled state of one promise, as Promise.allSettled reports it. -/
inductive Settled where
  | fulfilled : Settled
  | rejected : String → Settled
deriving Repr, DecidableEq

namespace FileController

/-- The ops construction inside parseFilesAndFields:
`ops.isPrivate = !(parsedOps.isPrivate === false)`, where `v` is the value
of the isPrivate member of the parsed ops JSON (none when the member is
absent). Strict equality against `false` holds exactly for the boolean
value false. -/
def opsIsPrivate (v : Option JsValue) : Bool :=
  !(decide (v = some (JsValue.vBool false)))

/-- parseFilesAndFields always sets ops.isPrivate (so the member is
present, never undefined). -/
def parseOps (v : Option JsValue) : ParsedOps :=
  { isPrivate := some (opsIsPrivate v) }

/-- The possible outcomes of the GET :filename handler: an HttpException,
or response.sendFile of the blob path. -/
inductive GetFileResponse where
  | error : HttpException → GetFileResponse
  | file : String → GetFileResponse
deriving Repr, DecidableEq

/-- FileController.getFileByName. `record` is the settled result of
fileService.getFileByName (none = rejected with NotFoundError, the only
rejection of the in-memory backend), `blobExists` says whether
stat(savedFilePath/filename) fulfilled, and `authorized` is the caller's
authentication state. A fulfilled lookup of a private record by an
unauthenticated caller is answered with the same empty 400 used for the
two not-found cases; only surviving all three checks serves the file. -/
def getFileByName (authorized : Bool) (savedFilePath filename : String)
    (record : Option FileDetails) (blobExists : Bool) : GetFileResponse :=
  let pathToFile := savedFilePath ++ "/" ++ filename
  match record with
  | none =>
    if authorized then GetFileResponse.error { message := "File not found", status := 404 }
    else GetFileResponse.error { message := "", status := 400 }
  | some fileDetails =>
    if !blobExists then
      if authorized then GetFileResponse.error { message := "File not found", status := 404 }
      else GetFileResponse.error { message := "", status := 400 }
    else if fileDetails.isPrivate && !authorized then
      GetFileResponse.error { message := "", status := 400 }
    else GetFileResponse.file pathToFile

/-- FileController.deleteFilesFromFileSystem: Promise.all of
rm(savedFilePath/name) for every name. rm of an absent path rejects
(ENOENT); and when the same existing path is listed twice, the concurrent
rm calls race on one unlink, so exactly one fulfills and every other one
rejects with ENOENT (rm defaults to force:false), under every scheduling.
The join therefore fulfills exactly when every listed name has a blob and
no name is listed twice; all rm calls are started before the join, so
every listed existing blob is removed either way. `fs` is the list of
blob names present in the storage directory; the returned list is its
state afterwards. -/
def deleteFilesFromFileSystem (fs : List String) (filenames : List String) :
    Except String (List String) :=
  let fsAfter := fs.filter (fun b => !(filenames.contains b))
  if (filenames.all (fun n => fs.contains n)) = true ∧ filenames.Nodup
  then Except.ok fsAfter
  else Except.error ("ENOENT")

/-- Result of the POST delete handler: the response (or thrown
HttpException) together with both stores' states afterwards. -/
structure DeleteFilesResult where
  result : Except HttpException (List DeleteDetailsJSON)
  store : Store
  fs : List String
deriving Repr, DecidableEq

/-- FileController.deleteFiles, after the isStringArray(body) guard: the
catalog batch delete and the filesystem delete are joined with
Promise.allSettled (so both effects always happen); the in-memory catalog
delete never rejects, so only a filesystem rejection reaches the
isRejected checks, and it fails the whole call with an empty 400;
otherwise the catalog report is returned entry by entry. -/
def deleteFiles (st : Store) (fs : List String) (body : List String) :
    DeleteFilesResult :=
  let dbSettled := InMemoryFileDataService.deleteFiles st body
  let fsSettled := deleteFilesFromFileSystem fs body
  let fsAfter := fs.filter (fun b => !(body.contains b))
  match fsSettled with
  | Except.error _ =>
    { result := Except.error { message := "", status := 400 }
      store := dbSettled.2
      fs := fsAfter }
  | Except.ok _ =>
    { result := Except.ok (dbSettled.1.map (fun el =>
        { filename := el.filename
          error := el.error
          fileDetails := el.fileDetails }))
      store := dbSettled.2
      fs := fsAfter }

/-- What FileController.rollBackWrites did: the paths it called rm on, in
program order (committed blob paths first, then staged payload paths), and
the settled outcome of each rm. -/
structure RollbackResult where
  attempted : List String
  settled : List Settled
deriving Repr, DecidableEq

/-- FileController.rollBackWrites: rm the blob path of every new file
detail and the staged filepath of every uploaded payload, joined with
Promise.allSettled, whose list of settled outcomes never rejects; the
surrounding try/catch only logs. The whole call therefore returns
normally (Except.ok) for every failure pattern `rmFail`. -/
def rollBackWrites (savedFilePath : String) (files : List NewFileDetails)
    (uploadedFiles : List UploadedFile) (rmFail : String → Bool) :
    Except String RollbackResult :=
  let paths := files.map (fun el => savedFilePath ++ "/" ++ el.filename)
    ++ uploadedFiles.map (fun el => el.filepath)
  Except.ok
    { attempted := paths
      settled := paths.map (fun p =>
        if rmFail p then Settled.rejected ("rm failed") else Settled.fulfilled) }

/-- The for-loop of uploadFiles that builds one NewFileDetails per parsed
payload: fresh uuid as the storage filename, current time, the caller's
id, the payload's size, and ops.isPrivate ?? true. `uuidGen i` is the
uuid drawn for the i-th payload, `i` the loop position. -/
def newFilesFor (userId now : String) (isPriv : Bool) (uuidGen : Nat → String) :
    Nat → List UploadedFile → List NewFileDetails
  | _, [] => []
  | i, dat :: rest =>
    { originalFilename := dat.originalFilename
      filename := uuidGen i
      dateAdded := now
      authorId := userId
      size := dat.size
      isPrivate := isPriv } :: newFilesFor userId now isPriv uuidGen (i + 1) rest

/-- Result of the POST upload handler after a successful parse. -/
structure UploadResult where
  result : Except HttpException (List FileDetails)
  store : Store
  addFilesCalled : Bool
  rollback : Option RollbackResult
deriving Repr, DecidableEq

/-- FileController.uploadFiles after parseFilesAndFields succeeded: build
a NewFileDetails and a rename into the storage directory for every
payload, join the renames with Promise.all, and only if all fulfilled
insert the whole batch in the catalog; any rename rejection or a catalog
insert failure lands in the catch block, which awaits rollBackWrites over
the full batch and throws the 500. `renameFail i` says whether the i-th
rename rejects, `addFilesFail` whether the catalog insert rejects as a
whole (the abstract FileDataService may; the in-memory one does not), and
`rmFail` is the failure pattern of the rollback's rm calls. -/
def uploadFiles (st : Store) (savedFilePath userId now : String)
    (parsedData : ParsedFilesAndFields) (uuidGen idGen : Nat → String)
    (renameFail : Nat → Bool) (addFilesFail : Bool) (rmFail : String → Bool) :
    UploadResult :=
  let newFiles := newFilesFor userId now (parsedData.ops.isPrivate.getD true)
    uuidGen 0 parsedData.files
  let anyMoveFail := (List.range parsedData.files.length).any renameFail
  if anyMoveFail then
    let rb := rollBackWrites savedFilePath newFiles parsedData.files rmFail
    { result := Except.error { message := "Error Uploading Files", status := 500 }
      store := st
      addFilesCalled := false
      rollback := rb.toOption }
  else if addFilesFail then
    let rb := rollBackWrites savedFilePath newFiles parsedData.files rmFail
    { result := Except.error { message := "Error Uploading Files", status := 500 }
      store := st
      addFilesCalled := true
      rollback := rb.toOption }
  else
    let saved := InMemoryFileDataService.addFiles st idGen newFiles
    { result := Except.ok saved.1
      store := saved.2
      addFilesCalled := true
      rollback := none }

end FileController

theorem replaceBadRuns_mem (l : List Char) :
    ∀ (flag : Bool) (c : Char), c ∈ UploadedFile.replaceBadRuns flag l →
      allowedChar c = true := by
  induction l with
  | nil => intro flag c hc; simp [UploadedFile.replaceBadRuns] at hc
  | cons a cs ih =>
    intro flag c hc
    by_cases ha : allowedChar a = true
    · rw [UploadedFile.replaceBadRuns, if_pos ha] at hc
      rcases List.mem_cons.mp hc with h | h
      · exact h ▸ ha
      · exact ih false c h
    · rw [UploadedFile.replaceBadRuns, if_neg ha] at hc
      cases flag with
      | true =>
        rw [if_pos rfl] at hc
        exact ih true c hc
      | false =>
        rw [if_neg (by simp)] at hc
        rcases List.mem_cons.mp hc with h | h
        · rw [h]; rfl
        · exact ih true c h

theorem collapseUnderscores_mem (l : List Char) :
    ∀ (flag : Bool) (c : Char), c ∈ UploadedFile.collapseUnderscores flag l →
      c ∈ l := by
  induction l with
  | nil => intro flag c hc; simp [UploadedFile.collapseUnderscores] at hc
  | cons a cs ih =>
    intro flag c hc
    by_cases ha : (a == '_') = true
    · rw [UploadedFile.collapseUnderscores, if_pos ha] at hc
      cases flag with
      | true =>
        rw [if_pos rfl] at hc
        exact List.mem_cons_of_mem a (ih true c hc)
      | false =>
        rw [if_neg (by simp)] at hc
        rcases List.mem_cons.mp hc with h | h
        · rw [h, show a = '_' from beq_iff_eq.mp ha]; exact List.mem_cons_self _ _
        · exact List.mem_cons_of_mem a (ih true c h)
    · rw [UploadedFile.collapseUnderscores, if_neg ha] at hc
      rcases List.mem_cons.mp hc with h | h
      · rw [h]; exact List.mem_cons_self _ _
      · exact List.mem_cons_of_mem a (ih false c h)

theorem collapseUnderscores_spec (l : List Char) :
    (∀ flag, List.Chain' (fun a b => ¬(a = '_' ∧ b = '_'))
      (UploadedFile.collapseUnderscores flag l)) ∧
    (∀ c, (UploadedFile.collapseUnderscores true l).head? = some c →
      ¬(c = '_')) := by
  induction l with
  | nil =>
    constructor
    · intro flag; simp [UploadedFile.collapseUnderscores]
    · intro c hc; simp [UploadedFile.collapseUnderscores] at hc
  | cons a cs ih =>
    obtain ⟨ih1, ih2⟩ := ih
    by_cases ha : (a == '_') = true
    · have hae : a = '_' := beq_iff_eq.mp ha
      constructor
      · intro flag
        cases flag with
        | true =>
          rw [UploadedFile.collapseUnderscores, if_pos ha, if_pos rfl]
          exact ih1 true
        | false =>
          rw [UploadedFile.collapseUnderscores, if_pos ha, if_neg (by simp)]
          rw [List.chain'_cons']
          refine ⟨?_, ih1 true⟩
          intro b hb
          exact fun hcontra => ih2 b hb hcontra.2
      · intro c hc
        rw [UploadedFile.collapseUnderscores, if_pos ha, if_pos rfl] at hc
        exact ih2 c hc
    · have hane : ¬(a = '_') := fun h => ha (beq_iff_eq.mpr h)
      have hexp : ∀ flag, UploadedFile.collapseUnderscores flag (a :: cs)
          = a :: UploadedFile.collapseUnderscores false cs := by
        intro flag
        rw [UploadedFile.collapseUnderscores, if_neg ha]
      constructor
      · intro flag
        rw [hexp flag, List.chain'_cons']
        refine ⟨?_, ih1 false⟩
        intro b hb
        exact fun hcontra => hane hcontra.1
      · intro c hc
        rw [hexp true] at hc
        simp only [List.head?_cons, Option.some.injEq] at hc
        exact fun h => hane (hc ▸ h)

/-- C9: sanitizeFilename replaces every maximal run of characters outside
[A-Za-z0-9._-] with one underscore and then collapses runs of
underscores, so its output contains only characters of that class and
never two adjacent underscores. -/
theorem c9_sanitize_filename_charset (s : String) :
    ((UploadedFile.sanitizeFilename s).data.all allowedChar) = true ∧
    List.Chain' (fun a b => ¬(a = '_' ∧ b = '_'))
      (UploadedFile.sanitizeFilename s).data := by
  constructor
  · rw [List.all_eq_true]
    intro c hc
    have h1 : c ∈ UploadedFile.replaceBadRuns false s.data :=
      collapseUnderscores_mem _ false c hc
    exact replaceBadRuns_mem _ false c h1
  · exact (collapseUnderscores_spec (UploadedFile.replaceBadRuns false s.data)).1 false

theorem jsSlice_stop_zero {α : Type} (l : List α) (start : Int) :
    jsSlice l start 0 = [] := by
  unfold jsSlice
  have h1 : ¬((0:Int) < 0) := by omega
  have h2 : min (0:Int) (l.length : Int) = 0 := by
    have : (0:Int) ≤ l.length := by positivity
    omega
  simp only [if_neg h1, h2, Int.toNat_zero, List.take_zero, List.drop_nil]

theorem jsSlice_eq_nil_of_start_ge {α : Type} (l : List α) (start stop : Int)
    (h0 : 0 ≤ start) (h : (l.length : Int) ≤ start) : jsSlice l start stop = [] := by
  unfold jsSlice
  have h1 : ¬(start < 0) := by omega
  have h2 : min start (l.length : Int) = (l.length : Int) := by omega
  simp only [if_neg h1, h2, Int.toNat_natCast]
  apply List.drop_eq_nil_of_le
  calc (l.take _).length ≤ l.length := by
        rw [List.length_take]; exact Nat.min_le_right _ _
    _ ≤ l.length := le_refl _

theorem getFileList_length (st : Store) (le : FileDetails → FileDetails → Bool) :
    ((st.map (fun p => p.2)).mergeSort le).length = st.length := by
  rw [List.length_mergeSort, List.length_map]

/-- C4: getFileList's morePages equals the formula
page * pageSize < totalRecords; for in-range inputs this is equivalent to
records existing beyond the returned page of the sorted listing. -/
theorem c4_pagination_hasmore (st : Store) (page pagination : Int)
    (le : FileDetails → FileDetails → Bool) :
    (InMemoryFileDataService.getFileList st page pagination le).morePages
      = decide (page * pagination < (st.length : Int)) ∧
    (1 ≤ page → 0 ≤ pagination →
      ((InMemoryFileDataService.getFileList st page pagination le).morePages = true ↔
        (InMemoryFileDataService.sortedFiles st le).drop
          (pagination * page).toNat ≠ [])) := by
  constructor
  · simp only [InMemoryFileDataService.getFileList, getFileList_length]
    rw [Int.mul_comm]
  · intro hpage hpag
    have h0 : (0:Int) ≤ pagination * page :=
      mul_nonneg hpag (le_trans zero_le_one hpage)
    simp only [InMemoryFileDataService.getFileList,
      InMemoryFileDataService.sortedFiles, getFileList_length,
      decide_eq_true_eq, ne_eq, List.drop_eq_nil_iff, getFileList_length]
    omega

/-- Amended C5: a 1-indexed page past the last record (with nonnegative
pageSize) yields an empty list with morePages = false, but pages at or
below 0 are not clamped: page 0 still returns an empty list while
morePages keeps the raw formula pageSize * page < totalRecords, which is
true for page 0 over a nonempty catalog. -/
theorem c5_out_of_range_amended (st : Store) (page pagination : Int)
    (le : FileDetails → FileDetails → Bool) :
    (1 ≤ page → 0 ≤ pagination → (st.length : Int) ≤ pagination * (page - 1) →
      (InMemoryFileDataService.getFileList st page pagination le).files = [] ∧
      (InMemoryFileDataService.getFileList st page pagination le).morePages = false) ∧
    (page = 0 →
      (InMemoryFileDataService.getFileList st page pagination le).files = []) ∧
    (page ≤ 0 →
      (InMemoryFileDataService.getFileList st page pagination le).morePages
        = decide (pagination * page < (st.length : Int))) := by
  refine ⟨?_, ?_, ?_⟩
  · intro hpage hpag hskip
    have hlen := getFileList_length st le
    constructor
    · simp only [InMemoryFileDataService.getFileList]
      apply jsSlice_eq_nil_of_start_ge
      · exact mul_nonneg hpag (by omega)
      · rw [hlen]; exact hskip
    · simp only [InMemoryFileDataService.getFileList, hlen]
      have hsum : pagination * page = pagination * (page - 1) + pagination := by ring
      simp only [decide_eq_false_iff_not, not_lt]
      omega
  · intro hpage
    subst hpage
    simp only [InMemoryFileDataService.getFileList, Int.mul_zero]
    exact jsSlice_stop_zero _ _
  · intro hpage
    simp only [InMemoryFileDataService.getFileList, getFileList_length]

/-- A concrete catalog record used by the concrete instantiations. -/
def sampleFd : FileDetails :=
  { id := "id1", originalFilename := "a.txt", filename := "abc",
    dateAdded := "2024-01-01T00:00:00.000Z", authorId := "u1", size := 1,
    isPrivate := true }

/-- A concrete sort comparator (ByOriginalName with ordinal string
comparison) used by the concrete instantiations. -/
def byNameLe (a b : FileDetails) : Bool :=
  decide (a.originalFilename ≤ b.originalFilename)

/-- C5 fails as stated: page 0 is outside the valid 1-indexed range, and on
a one-record catalog getFileList returns an empty list but morePages =
true, not false. -/
theorem c5_page_zero_counterexample :
    (InMemoryFileDataService.getFileList [("abc", sampleFd)] 0 20 byNameLe).files = [] ∧
    (InMemoryFileDataService.getFileList [("abc", sampleFd)] 0 20 byNameLe).morePages = true := by
  constructor
  · simp only [InMemoryFileDataService.getFileList, Int.mul_zero]
    exact jsSlice_stop_zero _ _
  · simp only [InMemoryFileDataService.getFileList, getFileList_length]
    decide

theorem c5_out_of_range_witness :
    (InMemoryFileDataService.getFileList [("abc", sampleFd)] 2 20 byNameLe).files = [] ∧
    (InMemoryFileDataService.getFileList [("abc", sampleFd)] 2 20 byNameLe).morePages = false :=
  (c5_out_of_range_amended [("abc", sampleFd)] 2 20 byNameLe).1 (by norm_num)
    (by norm_num) (by norm_num)

theorem c4_pagination_hasmore_witness :
    (1:Int) ≤ 1 ∧ (0:Int) ≤ 20 ∧
    ((InMemoryFileDataService.getFileList [("abc", sampleFd)] 1 20 byNameLe).morePages = true ↔
      (InMemoryFileDataService.sortedFiles [("abc", sampleFd)] byNameLe).drop
        ((20:Int) * 1).toNat ≠ []) :=
  ⟨by norm_num, by norm_num,
    (c4_pagination_hasmore [("abc", sampleFd)] 1 20 byNameLe).2 (by norm_num) (by norm_num)⟩

/-- The report entry the catalog owes a name, as a function of the catalog
state at the moment the name is processed. -/
def expectedDeleteOutcome (st : Store) (n : String) : DeleteDetails :=
  match objGet st n with
  | some f => { filename := n, fileDetails := some f, error := none }
  | none => { filename := n, fileDetails := none,
              error := some ("File Does Not Exist") }

theorem deleteFiles_fst_filenames (names : List String) :
    ∀ st : Store,
      ((InMemoryFileDataService.deleteFiles st names).1.map
        (fun d => d.filename)) = names := by
  induction names with
  | nil => intro st; rfl
  | cons m rest ih =>
    intro st
    cases hg : objGet st m <;>
      simp [InMemoryFileDataService.deleteFiles, hg, ih]

theorem deleteFiles_fst_first_occurrence (names : List String) :
    ∀ (st : Store) (i : Nat) (n : String), names[i]? = some n →
      n ∉ names.take i →
      (InMemoryFileDataService.deleteFiles st names).1[i]? =
        some (expectedDeleteOutcome st n) := by
  induction names with
  | nil => intro st i n h htake; simp at h
  | cons m rest ih =>
    intro st i n h htake
    cases i with
    | zero =>
      have hn : n = m := by simpa using h.symm
      subst hn
      cases hg : objGet st n <;>
        simp [InMemoryFileDataService.deleteFiles, hg, expectedDeleteOutcome]
    | succ i =>
      have h' : rest[i]? = some n := by simpa using h
      have htake' : n ∉ rest.take i ∧ ¬(n = m) := by
        rw [List.take_succ_cons] at htake
        simp only [List.mem_cons, not_or] at htake
        exact ⟨htake.2, htake.1⟩
      cases hg : objGet st m with
      | some f =>
        have hrec := ih (objDelete st m) i n h' htake'.1
        have hsame : expectedDeleteOutcome (objDelete st m) n
            = expectedDeleteOutcome st n := by
          unfold expectedDeleteOutcome
          rw [objGet_objDelete, if_neg htake'.2]
        rw [hsame] at hrec
        simpa [InMemoryFileDataService.deleteFiles, hg] using hrec
      | none =>
        have hrec := ih st i n h' htake'.1
        simpa [InMemoryFileDataService.deleteFiles, hg] using hrec

theorem deleteFiles_snd_objGet (names : List String) :
    ∀ (st : Store) (k : String),
      objGet (InMemoryFileDataService.deleteFiles st names).2 k =
        if k ∈ names then none else objGet st k := by
  induction names with
  | nil => intro st k; simp [InMemoryFileDataService.deleteFiles]
  | cons m rest ih =>
    intro st k
    by_cases hkm : k = m
    · subst hkm
      cases hg : objGet st k with
      | some f =>
        simp only [InMemoryFileDataService.deleteFiles, hg]
        rw [ih]
        by_cases hk : k ∈ rest
        · simp [hk]
        · simp [hk, objGet_objDelete]
      | none =>
        simp only [InMemoryFileDataService.deleteFiles, hg]
        rw [ih]
        by_cases hk : k ∈ rest
        · simp [hk]
        · simp [hk, hg]
    · cases hg : objGet st m with
      | some f =>
        simp only [InMemoryFileDataService.deleteFiles, hg]
        rw [ih]
        have : objGet (objDelete st m) k = objGet st k := by
          rw [objGet_objDelete, if_neg hkm]
        by_cases hk : k ∈ rest
        · simp [hk]
        · simp [hk, this, List.mem_cons, hkm]
      | none =>
        simp only [InMemoryFileDataService.deleteFiles, hg]
        rw [ih]
        by_cases hk : k ∈ rest
        · simp [hk]
        · simp [hk, List.mem_cons, hkm]

/-- C6: the catalog's deleteFiles returns exactly one outcome per input
name, in input order; at a name's first occurrence the outcome carries the
former record (and drops it from the catalog) when present, and the
not-found error string with no record when absent; every listed name and
no other is removed from the catalog. The function is total, so the batch
never fails as a whole. -/
theorem c6_catalog_batch_delete (st : Store) (names : List String) :
    ((InMemoryFileDataService.deleteFiles st names).1.map
      (fun d => d.filename)) = names ∧
    (∀ i n, names[i]? = some n → n ∉ names.take i →
      (InMemoryFileDataService.deleteFiles st names).1[i]? =
        some (expectedDeleteOutcome st n)) ∧
    (∀ k, objGet (InMemoryFileDataService.deleteFiles st names).2 k =
      if k ∈ names then none else objGet st k) :=
  ⟨deleteFiles_fst_filenames names st,
   fun i n h htake => deleteFiles_fst_first_occurrence names st i n h htake,
   fun k => deleteFiles_snd_objGet names st k⟩

theorem c6_catalog_batch_delete_witness :
    ((InMemoryFileDataService.deleteFiles [("a", sampleFd)] ["a", "b"]).1[0]? =
      some (expectedDeleteOutcome [("a", sampleFd)] "a")) ∧
    ((InMemoryFileDataService.deleteFiles [("a", sampleFd)] ["a", "b"]).1[1]? =
      some (expectedDeleteOutcome [("a", sampleFd)] "b")) :=
  ⟨(c6_catalog_batch_delete [("a", sampleFd)] ["a", "b"]).2.1 0 ("a")
      (by decide) (by decide),
   (c6_catalog_batch_delete [("a", sampleFd)] ["a", "b"]).2.1 1 ("b")
      (by decide) (by decide)⟩

theorem addFilesAux_cons (idGen : Nat → String) (st : Store) (i : Nat)
    (nfd : NewFileDetails) (rest : List NewFileDetails) :
    InMemoryFileDataService.addFilesAux idGen st i (nfd :: rest) =
      (FileDetails.fromNewFileDetails (idGen i) nfd ::
        (InMemoryFileDataService.addFilesAux idGen
          (objSet st (FileDetails.fromNewFileDetails (idGen i) nfd).filename
            (FileDetails.fromNewFileDetails (idGen i) nfd)) (i + 1) rest).1,
       (InMemoryFileDataService.addFilesAux idGen
          (objSet st (FileDetails.fromNewFileDetails (idGen i) nfd).filename
            (FileDetails.fromNewFileDetails (idGen i) nfd)) (i + 1) rest).2) :=
  rfl

theorem addFilesAux_fst_getElem (idGen : Nat → String)
    (nfds : List NewFileDetails) :
    ∀ (st : Store) (i j : Nat) (nfd : NewFileDetails), nfds[j]? = some nfd →
      (InMemoryFileDataService.addFilesAux idGen st i nfds).1[j]? =
        some (FileDetails.fromNewFileDetails (idGen (i + j)) nfd) := by
  induction nfds with
  | nil => intro st i j nfd h; simp at h
  | cons a rest ih =>
    intro st i j nfd h
    cases j with
    | zero =>
      have ha : a = nfd := by simpa using h
      subst ha
      rw [addFilesAux_cons]
      simp
    | succ j =>
      have h' : rest[j]? = some nfd := by simpa using h
      rw [addFilesAux_cons]
      have := ih (objSet st (FileDetails.fromNewFileDetails (idGen i) a).filename
        (FileDetails.fromNewFileDetails (idGen i) a)) (i + 1) j nfd h'
      simpa [Nat.add_assoc, Nat.add_comm 1 j] using this

theorem addFilesAux_fst_length (idGen : Nat → String)
    (nfds : List NewFileDetails) :
    ∀ (st : Store) (i : Nat),
      (InMemoryFileDataService.addFilesAux idGen st i nfds).1.length
        = nfds.length := by
  induction nfds with
  | nil => intro st i; rfl
  | cons a rest ih =>
    intro st i
    rw [addFilesAux_cons]
    simp [ih]

theorem addFilesAux_snd_objGet (idGen : Nat → String)
    (nfds : List NewFileDetails) :
    ∀ (st : Store) (i : Nat) (k : String),
      objGet (InMemoryFileDataService.addFilesAux idGen st i nfds).2 k =
        match ((InMemoryFileDataService.addFilesAux idGen st i nfds).1.filter
            (fun fd => fd.filename == k)).getLast? with
        | some fd => some fd
        | none => objGet st k := by
  induction nfds with
  | nil => intro st i k; rfl
  | cons a rest ih =>
    intro st i k
    rw [addFilesAux_cons]
    simp only []
    set fd := FileDetails.fromNewFileDetails (idGen i) a with hfd
    set st' := objSet st fd.filename fd with hst'
    have hrec := ih st' (i + 1) k
    by_cases hp : (fd.filename == k) = true
    · have hpk : fd.filename = k := beq_iff_eq.mp hp
      simp only [List.filter_cons, hp, if_true]
      cases hl : (InMemoryFileDataService.addFilesAux idGen st' (i + 1) rest).1.filter
          (fun fd => fd.filename == k) with
      | nil =>
        rw [hl] at hrec
        rw [List.getLast?_singleton, hrec]
        simp [hst', objGet_objSet, hpk.symm]
      | cons g l =>
        rw [hl] at hrec
        rw [List.getLast?_cons_cons]
        cases hgl : (g :: l).getLast? with
        | none => simp at hgl
        | some x =>
          rw [hgl] at hrec
          exact hrec
    · have hpf : (fd.filename == k) = false := by simpa using hp
      simp only [List.filter_cons, hpf, Bool.false_eq_true, if_false]
      have hpk : ¬(k = fd.filename) := fun h => hp (beq_iff_eq.mpr h.symm)
      cases hl : (InMemoryFileDataService.addFilesAux idGen st' (i + 1) rest).1.filter
          (fun fd => fd.filename == k) with
      | nil =>
        rw [hl] at hrec
        rw [hrec]
        simp [hst', objGet_objSet, if_neg hpk]
      | cons g l =>
        rw [hl] at hrec
        cases hgl : (g :: l).getLast? with
        | none => simp at hgl
        | some x =>
          rw [hgl] at hrec
          exact hrec

/-- C10: addFiles hands back exactly one record per input, in input order,
with the id drawn for that position; but the store is keyed by filename,
so getFileByName afterwards retrieves the last record of the batch bearing
the name (falling back to the previous catalog content), silently dropping
any earlier record with the same filename even though it was returned. -/
theorem c10_addfiles_duplicate_overwrite (st : Store) (idGen : Nat → String)
    (nfds : List NewFileDetails) :
    (InMemoryFileDataService.addFiles st idGen nfds).1.length = nfds.length ∧
    (∀ j nfd, nfds[j]? = some nfd →
      (InMemoryFileDataService.addFiles st idGen nfds).1[j]? =
        some (FileDetails.fromNewFileDetails (idGen j) nfd)) ∧
    (∀ k, InMemoryFileDataService.getFileByName
        (InMemoryFileDataService.addFiles st idGen nfds).2 k =
      match ((InMemoryFileDataService.addFiles st idGen nfds).1.filter
          (fun fd => fd.filename == k)).getLast? with
      | some fd => Except.ok fd
      | none => InMemoryFileDataService.getFileByName st k) := by
  refine ⟨addFilesAux_fst_length idGen nfds st 0, ?_, ?_⟩
  · intro j nfd h
    simpa using addFilesAux_fst_getElem idGen nfds st 0 j nfd h
  · intro k
    have h := addFilesAux_snd_objGet idGen nfds st 0 k
    unfold InMemoryFileDataService.addFiles
    unfold InMemoryFileDataService.getFileByName
    rw [h]
    cases ((InMemoryFileDataService.addFilesAux idGen st 0 nfds).1.filter
        (fun fd => fd.filename == k)).getLast? with
    | none => rfl
    | some fd => rfl

/-- Two upload inputs sharing the storage filename dup. -/
def nfdA : NewFileDetails :=
  { originalFilename := "one.txt", filename := "dup", dateAdded := "d1",
    authorId := "u1", size := 1, isPrivate := true }

def nfdB : NewFileDetails :=
  { originalFilename := "two.txt", filename := "dup", dateAdded := "d2",
    authorId := "u1", size := 2, isPrivate := true }

theorem c10_addfiles_duplicate_overwrite_witness :
    ((InMemoryFileDataService.addFiles [] (fun i => "x") [nfdA, nfdB]).1[0]? =
      some (FileDetails.fromNewFileDetails ("x") nfdA)) ∧
    ((InMemoryFileDataService.addFiles [] (fun i => "x") [nfdA, nfdB]).1[1]? =
      some (FileDetails.fromNewFileDetails ("x") nfdB)) :=
  ⟨(c10_addfiles_duplicate_overwrite [] (fun i => "x") [nfdA, nfdB]).2.1 0 nfdA rfl,
   (c10_addfiles_duplicate_overwrite [] (fun i => "x") [nfdA, nfdB]).2.1 1 nfdB rfl⟩

theorem newFilesFor_isPrivate (userId now : String) (isPriv : Bool)
    (uuidGen : Nat → String) (files : List UploadedFile) :
    ∀ (i : Nat) (nfd : NewFileDetails),
      nfd ∈ FileController.newFilesFor userId now isPriv uuidGen i files →
      nfd.isPrivate = isPriv := by
  induction files with
  | nil => intro i nfd h; simp [FileController.newFilesFor] at h
  | cons dat rest ih =>
    intro i nfd h
    rw [FileController.newFilesFor] at h
    rcases List.mem_cons.mp h with h | h
    · rw [h]
    · exact ih (i + 1) nfd h

theorem addFilesAux_fst_isPrivate (idGen : Nat → String)
    (nfds : List NewFileDetails) :
    ∀ (st : Store) (i : Nat) (fd : FileDetails),
      fd ∈ (InMemoryFileDataService.addFilesAux idGen st i nfds).1 →
      ∃ nfd ∈ nfds, fd.isPrivate = nfd.isPrivate := by
  induction nfds with
  | nil => intro st i fd h; simp [InMemoryFileDataService.addFilesAux] at h
  | cons a rest ih =>
    intro st i fd h
    rw [addFilesAux_cons] at h
    rcases List.mem_cons.mp h with h | h
    · exact ⟨a, List.mem_cons_self a rest, by rw [h]; rfl⟩
    · obtain ⟨nfd, hmem, hpriv⟩ := ih _ (i + 1) fd h
      exact ⟨nfd, List.mem_cons_of_mem a hmem, hpriv⟩

/-- C7: a record created by a successful upload is public (isPrivate =
false) exactly when the parsed ops JSON holds the boolean value false
under isPrivate; any other value, and an absent member, yield a private
record. -/
theorem c7_visibility_default (st : Store) (savedFilePath userId now : String)
    (files : List UploadedFile) (v : Option JsValue)
    (uuidGen idGen : Nat → String) (rmFail : String → Bool)
    (out : List FileDetails) (fd : FileDetails)
    (hok : (FileController.uploadFiles st savedFilePath userId now
        { files := files, ops := FileController.parseOps v } uuidGen idGen
        (fun i => false) false rmFail).result = Except.ok out)
    (hmem : fd ∈ out) :
    (fd.isPrivate = false ↔ v = some (JsValue.vBool false)) := by
  have hany : ((List.range files.length).any (fun i => false)) = false := by simp
  simp only [FileController.uploadFiles, hany, Bool.false_eq_true, if_false,
    Except.ok.injEq] at hok
  subst hok
  obtain ⟨nfd, hnfd, hpriv⟩ :=
    addFilesAux_fst_isPrivate idGen _ st 0 fd hmem
  have hisp := newFilesFor_isPrivate userId now _ uuidGen files 0 nfd hnfd
  rw [hpriv, hisp]
  show FileController.opsIsPrivate v = false ↔ _
  unfold FileController.opsIsPrivate
  by_cases hv : v = some (JsValue.vBool false) <;> simp [hv]

/-- The single uploaded payload of the concrete upload scenarios. -/
def upSample : UploadedFile :=
  { filepath := "/tmp/a", originalFilename := "a.txt", size := 1 }

theorem c7_visibility_default_witness :
    ((FileDetails.fromNewFileDetails ("ii")
        { originalFilename := "a.txt", filename := "uu", dateAdded := "t",
          authorId := "u", size := 1, isPrivate := false }).isPrivate = false ↔
      some (JsValue.vBool false) = some (JsValue.vBool false)) :=
  c7_visibility_default [] ("files") ("u") ("t") [upSample]
    (some (JsValue.vBool false)) (fun i => "uu") (fun i => "ii")
    (fun p => false)
    [FileDetails.fromNewFileDetails ("ii")
      { originalFilename := "a.txt", filename := "uu", dateAdded := "t",
        authorId := "u", size := 1, isPrivate := false }]
    (FileDetails.fromNewFileDetails ("ii")
      { originalFilename := "a.txt", filename := "uu", dateAdded := "t",
        authorId := "u", size := 1, isPrivate := false })
    (by decide) (by decide)

/-- C3: to an unauthenticated caller, a missing catalog record, a missing
blob, and a private record all produce the identical empty 400 response,
and a private record's bytes are never served to an unauthenticated
caller. -/
theorem c3_access_denial_uniformity (savedFilePath n1 n2 n3 : String)
    (fd2 fd3 : FileDetails) (b1 b3 : Bool)
    (hpriv : fd3.isPrivate = true) :
    FileController.getFileByName false savedFilePath n1 none b1 =
      FileController.GetFileResponse.error { message := "", status := 400 } ∧
    FileController.getFileByName false savedFilePath n2 (some fd2) false =
      FileController.GetFileResponse.error { message := "", status := 400 } ∧
    FileController.getFileByName false savedFilePath n3 (some fd3) b3 =
      FileController.GetFileResponse.error { message := "", status := 400 } ∧
    (∀ path, FileController.getFileByName false savedFilePath n3 (some fd3) b3 ≠
      FileController.GetFileResponse.file path) := by
  have h3 : FileController.getFileByName false savedFilePath n3 (some fd3) b3 =
      FileController.GetFileResponse.error { message := "", status := 400 } := by
    cases b3 <;> simp [FileController.getFileByName, hpriv]
  refine ⟨rfl, rfl, h3, ?_⟩
  intro path
  rw [h3]
  intro hcontra
  exact FileController.GetFileResponse.noConfusion hcontra

theorem c3_access_denial_uniformity_witness :
    FileController.getFileByName false ("files") ("zzz") (some sampleFd) true =
      FileController.GetFileResponse.error { message := "", status := 400 } :=
  (c3_access_denial_uniformity ("files") ("xxx") ("yyy") ("zzz") sampleFd sampleFd
    true true rfl).2.2.1

/-- C1: if any blob commit (rename) of the batch fails, or the catalog
insert fails, uploadFiles throws the 500 and returns no records, the
catalog keeps its previous state, the insert is never performed after a
failed commit, and rollback deletion is attempted for the blob path of
every file of the batch and for every staged payload path. -/
theorem c1_upload_atomicity (st : Store) (savedFilePath userId now : String)
    (parsedData : ParsedFilesAndFields) (uuidGen idGen : Nat → String)
    (renameFail : Nat → Bool) (addFilesFail : Bool) (rmFail : String → Bool)
    (hfail : (List.range parsedData.files.length).any renameFail = true ∨
      addFilesFail = true) :
    (FileController.uploadFiles st savedFilePath userId now parsedData uuidGen
        idGen renameFail addFilesFail rmFail).result =
      Except.error { message := "Error Uploading Files", status := 500 } ∧
    (FileController.uploadFiles st savedFilePath userId now parsedData uuidGen
        idGen renameFail addFilesFail rmFail).store = st ∧
    ((List.range parsedData.files.length).any renameFail = true →
      (FileController.uploadFiles st savedFilePath userId now parsedData uuidGen
        idGen renameFail addFilesFail rmFail).addFilesCalled = false) ∧
    (Option.map (fun rb => rb.attempted)
        (FileController.uploadFiles st savedFilePath userId now parsedData
          uuidGen idGen renameFail addFilesFail rmFail).rollback =
      some ((FileController.newFilesFor userId now
            (parsedData.ops.isPrivate.getD true) uuidGen 0
            parsedData.files).map (fun el => savedFilePath ++ "/" ++ el.filename)
        ++ parsedData.files.map (fun el => el.filepath))) := by
  by_cases hany : (List.range parsedData.files.length).any renameFail = true
  · simp [FileController.uploadFiles, FileController.rollBackWrites, hany,
      Except.toOption]
  · have haf : addFilesFail = true := hfail.resolve_left hany
    simp [FileController.uploadFiles, FileController.rollBackWrites, hany, haf,
      Except.toOption]

theorem c1_upload_atomicity_witness :
    (FileController.uploadFiles [] ("files") ("u") ("t")
        { files := [upSample], ops := { isPrivate := some true } }
        (fun i => "uu") (fun i => "ii") (fun i => true) false
        (fun p => false)).result =
      Except.error { message := "Error Uploading Files", status := 500 } :=
  (c1_upload_atomicity [] ("files") ("u") ("t")
    { files := [upSample], ops := { isPrivate := some true } }
    (fun i => "uu") (fun i => "ii") (fun i => true) false (fun p => false)
    (Or.inl (by decide))).1

/-- C8: rollBackWrites completes without throwing for every batch and
every failure pattern of the underlying rm calls; it joins exactly one
settled rm per saved file and per staged payload, attempting the blob path
of every new file detail and the staged path of every payload. -/
theorem c8_rollback_never_raises (savedFilePath : String)
    (files : List NewFileDetails) (uploadedFiles : List UploadedFile)
    (rmFail : String → Bool) :
    ∃ rb : FileController.RollbackResult,
      FileController.rollBackWrites savedFilePath files uploadedFiles rmFail =
        Except.ok rb ∧
      rb.settled.length = files.length + uploadedFiles.length ∧
      rb.attempted = files.map (fun el => savedFilePath ++ "/" ++ el.filename)
        ++ uploadedFiles.map (fun el => el.filepath) := by
  refine ⟨_, rfl, ?_, rfl⟩
  simp [FileController.rollBackWrites]
